import Mathlib

/-!
Verification development for the WVRealignment aggregation engine
(`Scripts/build_wv_aggregation_json.py`).

The Python source is shallowly embedded: strings are Lean `String`
(operated on as `List Char`, ASCII semantics, which covers all inputs the
claims exercise), Python `int` is `ℤ`, Python `float` arithmetic on vote
margins is modelled exactly over `ℚ`, and fallible code returns `Option` /
`Except`.  Each definition mirrors one Python function of the source and
keeps its name where Lean allows it.
-/

namespace WV

/-- Python whitespace class used by `str.strip` and the regex `\s`. -/
def isPySpace (c : Char) : Bool :=
  c = ' ' || c = Char.ofNat 9 || c = Char.ofNat 10 || c = Char.ofNat 13 ||
  c = Char.ofNat 11 || c = Char.ofNat 12

/-- ASCII lowercase letter test. -/
def isLowerAlpha (c : Char) : Bool := Char.ofNat 97 ≤ c && c ≤ Char.ofNat 122

/-- ASCII uppercase letter test. -/
def isUpperAlpha (c : Char) : Bool := Char.ofNat 65 ≤ c && c ≤ Char.ofNat 90

/-- ASCII letter test (Python `cased` characters, restricted to ASCII). -/
def isAlphaCh (c : Char) : Bool := isLowerAlpha c || isUpperAlpha c

/-- ASCII digit test. -/
def isDigitCh (c : Char) : Bool := Char.ofNat 48 ≤ c && c ≤ Char.ofNat 57

/-- Regex word character `\w` (ASCII): letter, digit or underscore. -/
def isWordCh (c : Char) : Bool := isAlphaCh c || isDigitCh c || c = Char.ofNat 95

/-- ASCII lower-casing of one character, as Python `str.lower` on ASCII. -/
def lowerCh (c : Char) : Char :=
  if isUpperAlpha c then Char.ofNat (c.toNat + 32) else c

/-- ASCII upper-casing of one character, as Python `str.upper` on ASCII. -/
def upperCh (c : Char) : Char :=
  if isLowerAlpha c then Char.ofNat (c.toNat - 32) else c

/-- Python `str.strip()` on a character list. -/
def pyStripL (l : List Char) : List Char :=
  ((l.dropWhile isPySpace).reverse.dropWhile isPySpace).reverse

/-- Auxiliary scan for `re.sub(r"\s+", " ", ·)`: the flag records whether the
previous character belonged to a whitespace run already emitted as one blank. -/
def collapseAux : Bool → List Char → List Char
  | _, [] => []
  | inRun, c :: cs =>
    if isPySpace c then
      if inRun then collapseAux true cs else ' ' :: collapseAux true cs
    else c :: collapseAux false cs

/-- `re.sub(r"\s+", " ", s)`: every maximal whitespace run becomes one blank. -/
def collapseWS (l : List Char) : List Char := collapseAux false l

/-- Python `str.title()` (ASCII): a letter is uppercased when the preceding
character is not a letter, lowercased otherwise. -/
def titleAux : Bool → List Char → List Char
  | _, [] => []
  | prevAlpha, c :: cs =>
    if isAlphaCh c then
      (if prevAlpha then lowerCh c else upperCh c) :: titleAux true cs
    else c :: titleAux false cs

/-- Python `str.title()` on a character list. -/
def pyTitleL (l : List Char) : List Char := titleAux false l

/-- Python `str.isupper()` (ASCII): at least one letter and no lowercase one. -/
def pyIsUpperL (l : List Char) : Bool :=
  l.any isAlphaCh && l.all (fun c => !isLowerAlpha c)

/-- The regex `\b` word boundary holds before the scan position when the
preceding character (`none` at the start of the string) is not a word
character. -/
def bdryP : Option Char → Bool
  | none => true
  | some p => !isWordCh p

/-- `re.sub(r"\bMc([a-z])", lambda m: "Mc" + m.group(1).upper(), ·)`.
The first argument is the character preceding the scan position, used to
decide the `\b` word boundary. -/
def mcFixAux : Option Char → List Char → List Char
  | _, [] => []
  | prev, c :: c2 :: c3 :: rest =>
    if bdryP prev && c = 'M' && c2 = 'c' && isLowerAlpha c3 then
      'M' :: 'c' :: upperCh c3 :: mcFixAux (some (upperCh c3)) rest
    else c :: mcFixAux (some c) (c2 :: c3 :: rest)
  | _, c :: cs => c :: mcFixAux (some c) cs

/-- The `Mc` re-capitalization pass on a character list. -/
def mcFixL (l : List Char) : List Char := mcFixAux none l

/-- `re.sub(r"\b(O')([a-z])", lambda m: m.group(1) + m.group(2).upper(), ·)`;
`Char.ofNat 39` is the apostrophe. -/
def oFixAux : Option Char → List Char → List Char
  | _, [] => []
  | prev, c :: c2 :: c3 :: rest =>
    if bdryP prev && c = 'O' && c2 = Char.ofNat 39 && isLowerAlpha c3 then
      'O' :: Char.ofNat 39 :: upperCh c3 :: oFixAux (some (upperCh c3)) rest
    else c :: oFixAux (some c) (c2 :: c3 :: rest)
  | _, c :: cs => c :: oFixAux (some c) cs

/-- The `O'` re-capitalization pass on a character list. -/
def oFixL (l : List Char) : List Char := oFixAux none l

/-- Alternatives of the Roman-numeral regex, in the alternation order of
`r"\b(Ii|Iii|Iv|V|Vi|Vii|Viii|Ix|X)\b"`. -/
def romanAlts : List (List Char) :=
  [['I','i'], ['I','i','i'], ['I','v'], ['V'], ['V','i'], ['V','i','i'],
   ['V','i','i','i'], ['I','x'], ['X']]

/-- Try one alternation branch: the literal characters must match and the
position after them must be a `\b` boundary (end of input or non-word). -/
def matchAlt : List Char → List Char → Option (List Char)
  | [], rest =>
    match rest with
    | [] => some []
    | c :: _ => if isWordCh c then none else some rest
  | _ :: _, [] => none
  | p :: ps, c :: cs => if c = p then matchAlt ps cs else none

/-- First alternation branch (regex leftmost-alternation order) that matches at
this position; returns the branch and the remaining input. -/
def tryAlts (alts : List (List Char)) (l : List Char) :
    Option (List Char × List Char) :=
  match alts with
  | [] => none
  | a :: rest =>
    match matchAlt a l with
    | some r => some (a, r)
    | none => tryAlts rest l

/-- A successful branch match consumes exactly the branch's characters. -/
theorem matchAlt_length :
    ∀ p l r, matchAlt p l = some r → l.length = p.length + r.length := by
  intro p
  induction p with
  | nil =>
    intro l r h
    cases l with
    | nil =>
      simp only [matchAlt, Option.some.injEq] at h
      simp [← h]
    | cons c cs =>
      simp only [matchAlt] at h
      by_cases hw : isWordCh c
      · simp [hw] at h
      · simp only [hw, Bool.false_eq_true, if_false, Option.some.injEq] at h
        simp [← h]
  | cons p ps ih =>
    intro l r h
    cases l with
    | nil => simp [matchAlt] at h
    | cons c cs =>
      simp only [matchAlt] at h
      by_cases hc : c = p
      · simp only [hc, if_pos rfl] at h
        have := ih cs r h
        simp only [List.length_cons, this]
        omega
      · simp [hc] at h

/-- A successful alternation match consumes the characters of one branch. -/
theorem tryAlts_length :
    ∀ alts l a r, tryAlts alts l = some (a, r) →
      a ∈ alts ∧ l.length = a.length + r.length := by
  intro alts
  induction alts with
  | nil => intro l a r h; simp [tryAlts] at h
  | cons b rest ih =>
    intro l a r h
    cases hm : matchAlt b l with
    | some r0 =>
      simp only [tryAlts, hm, Option.some.injEq, Prod.mk.injEq] at h
      obtain ⟨h1, h2⟩ := h
      subst h1
      subst h2
      exact ⟨List.mem_cons_self b rest, matchAlt_length b l r0 hm⟩
    | none =>
      simp only [tryAlts, hm] at h
      obtain ⟨ha, hl⟩ := ih l a r h
      exact ⟨List.mem_cons_of_mem b ha, hl⟩

/-- Every Roman-numeral alternation branch is nonempty. -/
theorem romanAlts_nonempty : ∀ a ∈ romanAlts, 1 ≤ a.length := by decide

/-- `re.sub(r"\b(Ii|Iii|Iv|V|Vi|Vii|Viii|Ix|X)\b", upper-of-match, ·)`.
Recursion is on a fuel bounded by the input length (each scan step consumes
at least one character, so the fuel never runs out). -/
def romanFixAux : ℕ → Option Char → List Char → List Char
  | 0, _, l => l
  | _ + 1, _, [] => []
  | fuel + 1, prev, c :: cs =>
    if bdryP prev then
      match tryAlts romanAlts (c :: cs) with
      | some (a, rest) =>
        a.map upperCh ++
        romanFixAux fuel (some (upperCh (a.getLastD c))) rest
      | none => c :: romanFixAux fuel (some c) cs
    else c :: romanFixAux fuel (some c) cs

/-- The Roman-numeral uppercase pass on a character list. -/
def romanFixL (l : List Char) : List Char := romanFixAux l.length none l

/-- `re.sub(r"\bXr\.?\b", "Xr.", ·, flags=IGNORECASE)` for a letter `X`
(`J` or `S` in the source).  Mirrors the regex engine: at a `\b` boundary the
greedy optional dot is taken only when a word character follows it (so that the
trailing `\b` holds); otherwise the engine backtracks and matches the bare
two letters, and the replacement `"Xr."` introduces a fresh dot while the
original dot, if any, stays in the input. -/
def suffixFixAux (x : Char) : Option Char → List Char → List Char
  | _, [] => []
  | prev, c :: c2 :: d :: e :: rest2 =>
    if bdryP prev && lowerCh c = lowerCh x && lowerCh c2 = 'r' then
      if d = '.' && isWordCh e then
        -- matched "Xr." (the trailing \b holds after the dot)
        upperCh x :: 'r' :: '.' :: suffixFixAux x (some '.') (e :: rest2)
      else if isWordCh d then
        -- "Xr" followed directly by a word character: no \b, no match here
        c :: suffixFixAux x (some c) (c2 :: d :: e :: rest2)
      else
        -- backtracked bare "Xr" match; the original d stays in the input
        upperCh x :: 'r' :: '.' :: suffixFixAux x (some 'r') (d :: e :: rest2)
    else c :: suffixFixAux x (some c) (c2 :: d :: e :: rest2)
  | prev, c :: c2 :: [d] =>
    if bdryP prev && lowerCh c = lowerCh x && lowerCh c2 = 'r' then
      if isWordCh d then c :: suffixFixAux x (some c) [c2, d]
      else upperCh x :: 'r' :: '.' :: suffixFixAux x (some 'r') [d]
    else c :: suffixFixAux x (some c) [c2, d]
  | prev, [c, c2] =>
    if bdryP prev && lowerCh c = lowerCh x && lowerCh c2 = 'r' then
      [upperCh x, 'r', '.']
    else c :: suffixFixAux x (some c) [c2]
  | _, [c] => c :: suffixFixAux x (some c) []

/-- `re.sub(r"\bJr\.?\b", "Jr.", ·, flags=IGNORECASE)`. -/
def jrFixL (l : List Char) : List Char := suffixFixAux 'J' none l

/-- `re.sub(r"\bSr\.?\b", "Sr.", ·, flags=IGNORECASE)`. -/
def srFixL (l : List Char) : List Char := suffixFixAux 'S' none l

/-- Lift a character-list transformation to `String`. -/
def onStr (f : List Char → List Char) (s : String) : String :=
  String.mk (f s.data)

/-- Python `str.strip()`. -/
def pyStrip (s : String) : String := onStr pyStripL s

/-- Python `str.lower()` (ASCII). -/
def pyLower (s : String) : String := onStr (List.map lowerCh) s

/-- Python `str.upper()` (ASCII). -/
def pyUpper (s : String) : String := onStr (List.map upperCh) s

/-- Python `str.title()` (ASCII). -/
def pyTitle (s : String) : String := onStr pyTitleL s

/-- Python `str.isupper()` (ASCII). -/
def pyIsUpper (s : String) : Bool := pyIsUpperL s.data

/-! ### Fixed vocabulary tables (`OFFICE_MAP`, `PARTY_MAP`, `COUNTY_ALIASES`) -/

/-- `OFFICE_MAP`: office label variants to `(contest_type, contest name)`. -/
def OFFICE_MAP : List (String × String × String) :=
  [("PRESIDENT", "president", "President of the United States"),
   ("U.S. PRESIDENT", "president", "President of the United States"),
   ("US PRESIDENT", "president", "President of the United States"),
   ("PRESIDENT OF THE UNITED STATES", "president",
    "President of the United States"),
   ("U.S. SENATE", "us_senate", "United States Senator"),
   ("US SENATE", "us_senate", "United States Senator"),
   ("SENATE", "us_senate", "United States Senator"),
   ("GOVERNOR", "governor", "Governor"),
   ("SECRETARY OF STATE", "secretary_of_state", "Secretary of State"),
   ("ATTORNEY GENERAL", "attorney_general", "Attorney General"),
   ("AUDITOR", "auditor", "Auditor"),
   ("STATE AUDITOR", "auditor", "Auditor"),
   ("AUDITOR OF STATE", "auditor", "Auditor"),
   ("TREASURER", "state_treasurer", "State Treasurer"),
   ("STATE TREASURER", "state_treasurer", "State Treasurer"),
   ("COMMISSIONER OF AGRICULTURE", "commissioner_of_agriculture",
    "Commissioner of Agriculture"),
   ("COMMISIONER OF AGRICULTURE", "commissioner_of_agriculture",
    "Commissioner of Agriculture")]

/-- Look an office up in `OFFICE_MAP` (`office in OFFICE_MAP` plus
`OFFICE_MAP[office]`; the table's keys are distinct, so association-list
lookup coincides with Python dict lookup). -/
def officeLookup (o : String) : Option (String × String) :=
  match OFFICE_MAP.find? (fun e => e.1 == o) with
  | some e => some e.2
  | none => none

/-- `PARTY_MAP`: party code aliases to canonical codes. -/
def PARTY_MAP : List (String × String) :=
  [("D", "DEM"), ("DEM", "DEM"), ("DEMOCRAT", "DEM"), ("DEMOCRATIC", "DEM"),
   ("R", "REP"), ("REP", "REP"), ("REPUBLICAN", "REP"),
   ("LBN", "LIB"), ("LIB", "LIB"), ("LIBERTARIAN", "LIB"),
   ("MTN", "MTN"), ("MOUNTAIN", "MTN"),
   ("CST", "CST"), ("CONSTITUTION", "CST"),
   ("IND", "IND"), ("INDEPENDENT", "IND"),
   ("NON", "NPA"), ("NPA", "NPA"), ("NO AFFILIATION", "NPA")]

/-- `COUNTY_ALIASES`: historical misspellings of county tokens. -/
def COUNTY_ALIASES : List (String × String) :=
  [("glimer", "gilmer"), ("pocohontas", "pocahontas"),
   ("pocohantas", "pocahontas")]

/-- Python `dict.get(k, d)` over an association list with distinct keys. -/
def assocGetD (l : List (String × String)) (k d : String) : String :=
  match l.find? (fun e => e.1 == k) with
  | some e => e.2
  | none => d

/-! ### Text normalizers -/

/-- `county_norm_token`: lower-case and keep only the letters `a`–`z`. -/
def county_norm_token (v : String) : String :=
  onStr (fun l => ((pyStripL l).map lowerCh).filter isLowerAlpha) v

/-- `normalize_text`: strip, collapse whitespace runs, upper-case. -/
def normalize_text (v : String) : String :=
  onStr (fun l => (collapseWS (pyStripL l)).map upperCh) v

/-- `"  "` → `" "` of Python `str.replace` (left-to-right, non-overlapping). -/
def replaceDblBlank : List Char → List Char
  | ' ' :: ' ' :: rest => ' ' :: replaceDblBlank rest
  | c :: rest => c :: replaceDblBlank rest
  | [] => []

/-- `normalize_office`: `normalize_text` then `.replace("  ", " ")`. -/
def normalize_office (v : String) : String :=
  onStr replaceDblBlank (normalize_text v)

/-- `normalize_party`: normalize then canonicalize through `PARTY_MAP`;
unknown codes pass through unchanged. -/
def normalize_party (v : String) : String :=
  let p := normalize_text v
  if p = "" then "" else assocGetD PARTY_MAP p p

/-- Drop a trailing `\s+COUNTY` (case-insensitive) from an already
collapsed-and-stripped name; after collapsing the matched suffix is exactly
one blank followed by `COUNTY` in any casing. -/
def stripCountySuffix (l : List Char) : List Char :=
  let r := l.reverse
  if ((r.take 6).map lowerCh == ['y', 't', 'n', 'u', 'o', 'c']) &&
     ((r.drop 6).head? == some ' ') then
    ((r.drop 7).reverse)
  else l

/-- `normalize_county_name`: strip, collapse whitespace, drop a trailing
`COUNTY` suffix. -/
def normalize_county_name (v : String) : String :=
  onStr (fun l => stripCountySuffix (collapseWS (pyStripL l))) v

/-- `display_county_name`: title-case an all-uppercase county name (restoring
`Mc` capitalization); other names are returned unchanged. -/
def display_county_name (v : String) : String :=
  let c := normalize_county_name v
  if c = "" then c
  else if pyIsUpper c then onStr (fun l => mcFixL (pyTitleL l)) c
  else c

/-- `county_key`: the normalized join key for a county. -/
def county_key (v : String) : String := normalize_text (normalize_county_name v)

/-- `canonicalize_county_name`: resolve a raw county through the optional
canonical lookup (alias table plus reference dictionary); without a lookup,
fall back to `display_county_name`.  The reference dictionary built by
`load_county_lookup` is modelled as the association list `county_lookup`. -/
def canonicalize_county_name (raw : String)
    (county_lookup : List (String × String)) : String :=
  let c := normalize_county_name raw
  if c = "" then ""
  else if county_lookup.isEmpty then display_county_name c
  else
    let token := county_norm_token c
    let token := assocGetD COUNTY_ALIASES token token
    assocGetD county_lookup token ""

/-- `normalize_candidate_name`: whitespace collapse, lower then title case,
then the `Mc`, `O'`, Roman-numeral and `Jr`/`Sr` compensation passes. -/
def normalize_candidate_name (raw : String) : String :=
  let s := onStr (fun l => collapseWS (pyStripL l)) raw
  if s = "" then ""
  else
    onStr (fun l =>
      srFixL (jrFixL (romanFixL (oFixL (mcFixL (pyTitleL (l.map lowerCh)))))))
      s

/-! ### Vote parsing (`to_int`, `extract_votes`) -/

/-- Value of a digit character. -/
def digitVal (c : Char) : ℕ := c.toNat - 48

/-- Read a maximal digit run, returning its value, its length and the rest. -/
def readDigits : List Char → ℕ → ℕ → (ℕ × ℕ × List Char)
  | c :: cs, acc, n =>
    if isDigitCh c then readDigits cs (acc * 10 + digitVal c) (n + 1)
    else (acc, n, c :: cs)
  | [], acc, n => (acc, n, [])

/-- Optional exponent part `e`/`E`, optional sign, digits. -/
def readExpo : List Char → Option (ℤ × List Char)
  | c :: cs =>
    if c = 'e' || c = 'E' then
      match cs with
      | s :: cs2 =>
        if s = '+' || s = '-' then
          match readDigits cs2 0 0 with
          | (_, 0, _) => none
          | (v, _, rest) => some (if s = '-' then -(v : ℤ) else (v : ℤ), rest)
        else
          match readDigits cs 0 0 with
          | (_, 0, _) => none
          | (v, _, rest) => some ((v : ℤ), rest)
      | [] => none
    else some (0, c :: cs)
  | [] => some (0, [])

/-- Model of Python `float(s)` on decimal literals (optional sign, digits with
an optional fractional part or a bare fractional part, optional exponent),
valued exactly in `ℚ`: the value is `±(ip·10^fpn + fp) / 10^fpn · 10^e`.
Python's `inf`/`nan` spellings and underscore digit separators are outside
the model; no claim input uses them. -/
def pyFloat (s : String) : Option ℚ :=
  let l := s.data
  let (neg, l) :=
    match l with
    | '-' :: rest => (true, rest)
    | '+' :: rest => (false, rest)
    | _ => (false, l)
  let (ip, ipn, l) := readDigits l 0 0
  let (fp, fpn, l) :=
    match l with
    | '.' :: rest =>
      match readDigits rest 0 0 with
      | (v, n, r) => (v, n, r)
    | _ => (0, 0, l)
  if ipn = 0 ∧ fpn = 0 then none
  else
    match readExpo l with
    | some (e, []) =>
      let base : ℤ := ((ip * 10 ^ fpn + fp : ℕ) : ℤ)
      let mag : ℚ :=
        if 0 ≤ e then mkRat (base * (10 : ℤ) ^ e.toNat) (10 ^ fpn)
        else mkRat base (10 ^ (fpn + (-e).toNat))
      some (if neg then -mag else mag)
    | _ => none

/-- Python `round` on a real value: round half to even.  Computed on the
reduced numerator and denominator: with `f = ⌊q⌋` and `rem = num − f·den`,
the fractional part compares to one half as `2·rem` compares to `den`. -/
def roundHalfEven (q : ℚ) : ℤ :=
  let f := Int.fdiv q.num q.den
  let rem := q.num - f * q.den
  if 2 * rem < (q.den : ℤ) then f
  else if (q.den : ℤ) < 2 * rem then f + 1
  else if f % 2 = 0 then f else f + 1

/-- `to_int`: strip; empty is zero; drop thousands separators; a lone `-` or
`--` is zero; otherwise parse as a float and round to the nearest integer.
`none` models the `ValueError` that `float` raises on non-numeric input and
that the source lets propagate. -/
def to_int (v : String) : Option ℤ :=
  let v := pyStrip v
  if v = "" then some 0
  else
    let v := onStr (List.filter (fun c => c ≠ ',')) v
    if v = "-" ∨ v = "--" then some 0
    else (pyFloat v).map roundHalfEven

/-- One raw CSV row.  The dict of the source is abstracted to its five
consumed fields: `row.get("county"/"office"/"party"/"candidate")` (empty
string when absent) and the value of the first votes column among
`votes`/`total votes`/`total_votes` after case-folding the header
(`none` when the row has no votes column). -/
structure Row where
  county : String
  office : String
  party : String
  candidate : String
  votesField : Option String
  deriving DecidableEq, Repr

/-- `extract_votes`: parse the votes column, or zero when the row has none. -/
def extract_votes (row : Row) : Option ℤ :=
  match row.votesField with
  | none => some 0
  | some v => to_int v

/-! ### Ingestion, deduplication and run state -/

/-- A normalized vote record; its whole tuple is the deduplication key. -/
structure Rec where
  year : String
  contest : String
  ckey : String
  party : String
  cand : String
  votes : ℤ
  deriving DecidableEq, Repr

/-- Per-file context: the year inferred from the filename and the county
inferred from the filename (used when a row has no county), plus the run's
canonical county lookup. -/
structure Ctx where
  year : String
  fileCounty : String
  lookup : List (String × String)
  deriving DecidableEq, Repr

/-- Row-level ingestion (lines 329–357 of the source before the dedupe test):
normalize every field — vote parsing happens before the filters and a parse
failure is fatal — then drop the row when the county is unresolved, the
office is untracked, the candidate is empty, or the county key is empty.
Returns the record plus the display name passed to
`county_name_by_key.setdefault` and the contest's display label. -/
def ingestRow (ctx : Ctx) (row : Row) :
    Except Unit (Option (Rec × String × String)) :=
  let county0 := pyStrip row.county
  let county1 := if county0 = "" then ctx.fileCounty else county0
  let county := canonicalize_county_name county1 ctx.lookup
  let office := normalize_office row.office
  let party := normalize_party row.party
  let cand := normalize_candidate_name row.candidate
  match extract_votes row with
  | none => Except.error ()
  | some votes =>
    if county = "" then Except.ok none
    else
      match officeLookup office with
      | none => Except.ok none
      | some (ct, cname) =>
        if cand = "" then Except.ok none
        else
          let ckey := county_key county
          if ckey = "" then Except.ok none
          else
            Except.ok (some
              ({ year := ctx.year, contest := ct, ckey := ckey,
                 party := party, cand := cand, votes := votes },
               display_county_name county, cname))

/-- Python `dict.setdefault` over an association list. -/
def setdefaultA (l : List (String × String)) (k v : String) :
    List (String × String) :=
  if l.any (fun e => e.1 == k) then l else l ++ [(k, v)]

/-- Python dict assignment over an association list keyed by
`(year, contest_type)`: overwrite in place or append. -/
def setLabel (l : List ((String × String) × String)) (k : String × String)
    (v : String) : List ((String × String) × String) :=
  if l.any (fun e => e.1 == k) then
    l.map (fun e => if e.1 == k then (e.1, v) else e)
  else l ++ [(k, v)]

/-- The run-wide mutable state of `main`'s ingestion loop: the dedupe set
`seen_entries`, `county_name_by_key`, `contest_labels_by_year`, and the
accepted records in arrival order (the nested `grouped_by_year` accumulator
of the source is recovered from this list by filtering, which preserves the
source's per-group append order). -/
structure State where
  seen : List Rec
  countyNames : List (String × String)
  labels : List ((String × String) × String)
  accepted : List Rec
  deriving DecidableEq, Repr

/-- The empty state at the start of a run. -/
def initState : State :=
  { seen := [], countyNames := [], labels := [], accepted := [] }

/-- Process one row: a fatal parse error aborts, a filtered row is skipped,
an accepted row records the county display name, and — unless its tuple was
already seen — is appended and its tuple, contest label recorded. -/
def step (s : State) (cr : Ctx × Row) : Option State :=
  match ingestRow cr.1 cr.2 with
  | Except.error _ => none
  | Except.ok none => some s
  | Except.ok (some (r, disp, cname)) =>
    let s1 : State := { s with countyNames := setdefaultA s.countyNames r.ckey disp }
    if r ∈ s1.seen then some s1
    else some { s1 with
      seen := r :: s1.seen,
      labels := setLabel s1.labels (r.year, r.contest) cname,
      accepted := s1.accepted ++ [r] }

/-- The ingestion loop over a discovered stream of rows (each carrying its
file's context); the first fatal error aborts the whole run. -/
def processRows (s : State) : List (Ctx × Row) → Option State
  | [] => some s
  | cr :: rest =>
    match step s cr with
    | none => none
    | some s1 => processRows s1 rest

/-! ### Aggregation (`main`, lines 359–435) -/

/-- Lexicographic `≤` on character lists by code point (Python string order). -/
def lexLe : List Char → List Char → Bool
  | [], _ => true
  | _ :: _, [] => false
  | a :: as, b :: bs =>
    if a.toNat < b.toNat then true
    else if b.toNat < a.toNat then false
    else lexLe as bs

/-- Python string `≤`. -/
def strLe (a b : String) : Bool := lexLe a.data b.data

/-- Insert into a list sorted by `le`. -/
def insertBy (le : α → α → Bool) (x : α) : List α → List α
  | [] => [x]
  | y :: ys => if le x y then x :: y :: ys else y :: insertBy le x ys

/-- Insertion sort by `le` (models Python `sorted` on lists of distinct
keys). -/
def sortBy (le : α → α → Bool) : List α → List α
  | [] => []
  | x :: xs => insertBy le x (sortBy le xs)

/-- Distinct strings of a list, keeping first occurrences (Python dict-key
semantics). -/
def dedupStr : List String → List String
  | [] => []
  | x :: xs => if x ∈ xs then dedupStr xs else x :: dedupStr xs

/-- `pick_top_candidate`: highest-vote entry, first wins ties (Python
`max(entries, key=...)` keeps the earliest maximum). -/
def pick_top_candidate : List (String × ℤ) → String
  | [] => ""
  | e :: es => (es.foldl (fun b x => if b.2 < x.2 then x else b) e).1

/-- Python `round(x, 2)` over `ℚ`. -/
def pyRound2 (q : ℚ) : ℚ := (roundHalfEven (q * 100) : ℚ) / 100

/-- The classification returned by `compute_competitiveness`. -/
structure Competitiveness where
  category : String
  party : String
  code : String
  color : String
  deriving DecidableEq, Repr

/-- Python `abs` on a signed rational. -/
def ratAbs (q : ℚ) : ℚ := if q < 0 then -q else q

/-- `compute_competitiveness`: the pure margin-percentage classifier. -/
def compute_competitiveness (margin_pct : ℚ) : Competitiveness :=
  let abs_margin := ratAbs margin_pct
  let wparty :=
    if 0 < margin_pct then "Democratic"
    else if margin_pct < 0 then "Republican" else "Tie"
  let cp := if 0 < margin_pct then "D" else if margin_pct < 0 then "R" else "T"
  let mk (tier tierCode colD colR : String) : Competitiveness :=
    { category := if wparty ≠ "Tie" then tier ++ " " ++ wparty else "Tossup",
      party := if wparty ≠ "Tie" then wparty else "Tossup",
      code := if cp ≠ "T" then cp ++ "_" ++ tierCode else "T_TOSSUP",
      color :=
        if 0 < margin_pct then colD
        else if margin_pct < 0 then colR else "#f7f7f7" }
  if 40 ≤ abs_margin then mk "Annihilation" "ANNIHILATION" "#08306b" "#67000d"
  else if 30 ≤ abs_margin then mk "Dominant" "DOMINANT" "#08519c" "#a50f15"
  else if 20 ≤ abs_margin then mk "Stronghold" "STRONGHOLD" "#3182bd" "#cb181d"
  else if 10 ≤ abs_margin then mk "Safe" "SAFE" "#6baed6" "#ef3b2c"
  else if mkRat 11 2 < abs_margin then mk "Likely" "LIKELY" "#9ecae1" "#fb6a4a"
  else if mkRat 99 100 < abs_margin then mk "Lean" "LEAN" "#c6dbef" "#fcae91"
  else if mkRat 1 2 ≤ abs_margin then mk "Tilt" "TILT" "#e1f5fe" "#fee8c8"
  else { category := "Tossup", party := "Tossup", code := "T_TOSSUP",
         color := "#f7f7f7" }

/-- One `CountyContestResult` of the output. -/
structure CCR where
  county : String
  contest : String
  year : String
  dem_candidate : String
  rep_candidate : String
  dem_votes : ℤ
  rep_votes : ℤ
  other_votes : ℤ
  total_votes : ℤ
  two_party_total : ℤ
  margin : ℤ
  margin_pct : ℚ
  winner : String
  competitiveness : Competitiveness
  all_parties : List (String × ℤ)
  deriving DecidableEq, Repr

/-- Sum of the votes of a list of `(party, candidate, votes)` entries. -/
def sumVotes (l : List (String × String × ℤ)) : ℤ :=
  (l.map (fun e => e.2.2)).sum

/-- Per-county arithmetic of `main` (lines 378–423) from the county's entry
list. -/
def countyResult (county cname year : String)
    (entries : List (String × String × ℤ)) : CCR :=
  let pkey := fun (p : String) => if p = "" then "NONPARTISAN" else p
  let pkeys := sortBy strLe (dedupStr (entries.map (fun e => pkey e.1)))
  let party_totals :=
    pkeys.map (fun p =>
      (p, sumVotes (entries.filter (fun e => pkey e.1 == p))))
  let dem_entries :=
    (entries.filter (fun e => e.1 == "DEM")).map (fun e => (e.2.1, e.2.2))
  let rep_entries :=
    (entries.filter (fun e => e.1 == "REP")).map (fun e => (e.2.1, e.2.2))
  let dem_votes := (dem_entries.map Prod.snd).sum
  let rep_votes := (rep_entries.map Prod.snd).sum
  let total_votes := sumVotes entries
  let two_party_total := dem_votes + rep_votes
  let other_votes := max 0 (total_votes - two_party_total)
  let margin := dem_votes - rep_votes
  let margin_pct :=
    if two_party_total ≠ 0 then
      pyRound2 ((margin : ℚ) / (two_party_total : ℚ) * 100)
    else 0
  let winner :=
    if rep_votes < dem_votes then "DEM"
    else if dem_votes < rep_votes then "REP"
    else "TIE"
  { county := county, contest := cname, year := year,
    dem_candidate := pick_top_candidate dem_entries,
    rep_candidate := pick_top_candidate rep_entries,
    dem_votes := dem_votes, rep_votes := rep_votes,
    other_votes := other_votes, total_votes := total_votes,
    two_party_total := two_party_total, margin := margin,
    margin_pct := margin_pct, winner := winner,
    competitiveness := compute_competitiveness margin_pct,
    all_parties := party_totals }

/-- The entry list of one `(year, contest, county)` group, in the source's
append order. -/
def entriesFor (st : State) (y ct ck : String) : List (String × String × ℤ) :=
  (st.accepted.filter (fun r => r.year == y && r.contest == ct && r.ckey == ck)).map
    (fun r => (r.party, r.cand, r.votes))

/-- Distinct county keys of one `(year, contest)` group (the keys of
`grouped_by_year[year][contest]`). -/
def countiesFor (st : State) (y ct : String) : List String :=
  dedupStr ((st.accepted.filter (fun r => r.year == y && r.contest == ct)).map
    (fun r => r.ckey))

/-- The years having records (keys of `grouped_by_year`), sorted. -/
def yearsOf (st : State) : List String :=
  sortBy strLe (dedupStr (st.accepted.map (fun r => r.year)))

/-- The contests of one year (keys of `grouped_by_year[year]`), sorted. -/
def contestsOf (st : State) (y : String) : List String :=
  sortBy strLe (dedupStr ((st.accepted.filter (fun r => r.year == y)).map
    (fun r => r.contest)))

/-- The contest display label recorded by the ingestion loop
(`contest_labels_by_year[year][contest_type]`). -/
def labelFor (st : State) (y ct : String) : String :=
  match st.labels.find? (fun e => e.1 == (y, ct)) with
  | some e => e.2
  | none => ""

/-- All county results of one kept `(year, contest)` group, counties ordered
by display name (`county_name_by_key.get(x, x)` as sort key,
`county_name_by_key.get(ckey, ckey.title())` as display). -/
def contestBlock (st : State) (y ct : String) : List CCR :=
  let cks := sortBy
    (fun a b => strLe (assocGetD st.countyNames a a) (assocGetD st.countyNames b b))
    (countiesFor st y ct)
  cks.map (fun ck =>
    countyResult (assocGetD st.countyNames ck (pyTitle ck))
      (labelFor st y ct) y (entriesFor st y ct ck))

/-- The per-year contest blocks that survive the minimum-county filter. -/
def yearBlocks (st : State) (minC : ℕ) (y : String) :
    List (String × List CCR) :=
  ((contestsOf st y).filter
      (fun ct => !((countiesFor st y ct).length < minC : Bool))).map
    (fun ct => (ct, contestBlock st y ct))

/-- `results_by_year`: years in ascending order, each with its surviving
contest blocks; a year with no surviving contest is dropped. -/
def resultsByYear (st : State) (minC : ℕ) :
    List (String × List (String × List CCR)) :=
  (yearsOf st).filterMap (fun y =>
    let b := yearBlocks st minC y
    if b.isEmpty then none else some (y, b))

/-- Every `CountyContestResult` of the aggregation output. -/
def allResults (st : State) (minC : ℕ) : List CCR :=
  (resultsByYear st minC).flatMap (fun yb => yb.2.flatMap (fun b => b.2))

/-- Whether a `(year, contest_type)` group appears in the output. -/
def contestPresent (st : State) (minC : ℕ) (y ct : String) : Bool :=
  match (resultsByYear st minC).find? (fun p => p.1 == y) with
  | none => false
  | some p => p.2.any (fun b => b.1 == ct)

/-! ### Shared lemmas about the ingestion loop -/

/-- The second state has every seen tuple and every recorded county key of
the first. -/
def Extends (s1 s2 : State) : Prop :=
  (∀ r, r ∈ s1.seen → r ∈ s2.seen) ∧
  (∀ k, s1.countyNames.any (fun e => e.1 == k) = true →
    s2.countyNames.any (fun e => e.1 == k) = true)

theorem Extends.rfl (s : State) : Extends s s :=
  ⟨fun _ h => h, fun _ h => h⟩

theorem Extends.trans {s1 s2 s3 : State}
    (h12 : Extends s1 s2) (h23 : Extends s2 s3) : Extends s1 s3 :=
  ⟨fun r h => h23.1 r (h12.1 r h), fun k h => h23.2 k (h12.2 k h)⟩

/-- `setdefault` keeps every present key. -/
theorem setdefaultA_keeps {l : List (String × String)} {k : String}
    (k0 v : String) (h : l.any (fun e => e.1 == k) = true) :
    (setdefaultA l k0 v).any (fun e => e.1 == k) = true := by
  unfold setdefaultA
  split_ifs with hp
  · exact h
  · rw [List.any_append]
    simp only [h, Bool.true_or]

/-- `setdefault` establishes its own key. -/
theorem setdefaultA_has {l : List (String × String)} (k v : String) :
    (setdefaultA l k v).any (fun e => e.1 == k) = true := by
  unfold setdefaultA
  split_ifs with hp
  · exact hp
  · rw [List.any_append]
    simp

/-- `setdefault` of a present key is the identity. -/
theorem setdefaultA_present {l : List (String × String)} {k : String}
    (v : String) (h : l.any (fun e => e.1 == k) = true) :
    setdefaultA l k v = l := by
  unfold setdefaultA
  rw [if_pos h]

/-- A skipped row leaves the state unchanged. -/
theorem step_skip {ctx : Ctx} {row : Row} (s : State)
    (h : ingestRow ctx row = Except.ok none) : step s (ctx, row) = some s := by
  unfold step
  rw [h]

/-- A fatal row aborts. -/
theorem step_fatal {ctx : Ctx} {row : Row} (s : State)
    (h : ingestRow ctx row = Except.error ()) : step s (ctx, row) = none := by
  unfold step
  rw [h]

/-- An accepted row always yields a state that has its tuple and its county
key. -/
theorem step_accept {ctx : Ctx} {row : Row} {r : Rec} {d n : String} (s : State)
    (h : ingestRow ctx row = Except.ok (some (r, d, n))) :
    ∃ s1, step s (ctx, row) = some s1 ∧ r ∈ s1.seen ∧
      s1.countyNames.any (fun e => e.1 == r.ckey) = true := by
  unfold step
  rw [h]
  dsimp only
  split_ifs with hseen
  · exact ⟨_, Eq.refl _, hseen, setdefaultA_has r.ckey d⟩
  · exact ⟨_, Eq.refl _, List.mem_cons_self _ _, setdefaultA_has r.ckey d⟩

/-- Every step only extends the seen set and the recorded county keys. -/
theorem step_extends {s s1 : State} {cr : Ctx × Row}
    (h : step s cr = some s1) : Extends s s1 := by
  unfold step at h
  cases hi : ingestRow cr.1 cr.2 with
  | error e => rw [hi] at h; exact absurd h (by simp)
  | ok o =>
    rw [hi] at h
    cases o with
    | none =>
      cases h
      exact Extends.rfl s
    | some acc =>
      obtain ⟨r, d, n⟩ := acc
      dsimp only at h
      split_ifs at h with hseen
      · cases h
        exact ⟨fun _ hm => hm, fun k hk => setdefaultA_keeps r.ckey d hk⟩
      · cases h
        exact ⟨fun _ hm => List.mem_cons_of_mem _ hm,
          fun k hk => setdefaultA_keeps r.ckey d hk⟩

/-- A whole run only extends the seen set and the recorded county keys. -/
theorem processRows_extends :
    ∀ {l : List (Ctx × Row)} {s s1 : State},
      processRows s l = some s1 → Extends s s1 := by
  intro l
  induction l with
  | nil =>
    intro s s1 h
    cases h
    exact Extends.rfl _
  | cons cr rest ih =>
    intro s s1 h
    unfold processRows at h
    cases hs : step s cr with
    | none => rw [hs] at h; exact absurd h (by simp)
    | some sa =>
      rw [hs] at h
      exact (step_extends hs).trans (ih h)

/-- Re-stepping a row whose tuple and county key are already recorded is the
identity. -/
theorem step_idem {ctx : Ctx} {row : Row} {r : Rec} {d n : String} (s : State)
    (h : ingestRow ctx row = Except.ok (some (r, d, n)))
    (hseen : r ∈ s.seen)
    (hkey : s.countyNames.any (fun e => e.1 == r.ckey) = true) :
    step s (ctx, row) = some s := by
  unfold step
  rw [h]
  dsimp only
  rw [setdefaultA_present d hkey]
  rw [if_pos hseen]

/-- The ingestion loop splits over list concatenation. -/
theorem processRows_append :
    ∀ (l1 l2 : List (Ctx × Row)) (s : State),
      processRows s (l1 ++ l2) =
        (processRows s l1).bind (fun s1 => processRows s1 l2) := by
  intro l1
  induction l1 with
  | nil => intro l2 s; rfl
  | cons cr rest ih =>
    intro l2 s
    have hunf1 : processRows s (cr :: (rest ++ l2))
        = match step s cr with
          | none => none
          | some s1 => processRows s1 (rest ++ l2) := rfl
    have hunf2 : processRows s (cr :: rest)
        = match step s cr with
          | none => none
          | some s1 => processRows s1 rest := rfl
    rw [List.cons_append, hunf1, hunf2]
    cases hs : step s cr with
    | none => rfl
    | some sa => exact ih l2 sa

/-- Replaying an already-processed row list over any state that extends the
result leaves that state unchanged. -/
theorem processRows_replay :
    ∀ {l : List (Ctx × Row)} {s s1 s2 : State},
      processRows s l = some s1 → Extends s1 s2 →
      processRows s2 l = some s2 := by
  intro l
  induction l with
  | nil => intro s s1 s2 _ _; rfl
  | cons cr rest ih =>
    intro s s1 s2 h hx
    unfold processRows at h
    cases hs : step s cr with
    | none => rw [hs] at h; exact absurd h (by simp)
    | some sa =>
      rw [hs] at h
      obtain ⟨ctx, row⟩ := cr
      cases hi : ingestRow ctx row with
      | error e =>
        obtain ⟨⟩ := e
        rw [step_fatal s hi] at hs
        exact absurd hs (by simp)
      | ok o =>
        cases o with
        | none =>
          show (match step s2 (ctx, row) with
            | none => none
            | some s3 => processRows s3 rest) = some s2
          rw [step_skip s2 hi]
          exact ih h hx
        | some acc =>
          obtain ⟨r, d, n⟩ := acc
          obtain ⟨sb, hsb, hmem, hkey⟩ := step_accept (s := s) hi
          rw [hs] at hsb
          cases hsb
          have hext : Extends sa s2 := (processRows_extends h).trans hx
          show (match step s2 (ctx, row) with
            | none => none
            | some s3 => processRows s3 rest) = some s2
          rw [step_idem s2 hi (hext.1 r hmem) (hext.2 r.ckey hkey)]
          exact ih h hx

/-! ### Shared lemmas about the aggregation output -/

/-- Membership in `insertBy` is membership in the inserted element or list. -/
theorem mem_insertBy {le : α → α → Bool} {x a : α} :
    ∀ {l : List α}, a ∈ insertBy le x l ↔ a = x ∨ a ∈ l := by
  intro l
  induction l with
  | nil => simp [insertBy]
  | cons y ys ih =>
    simp only [insertBy]
    by_cases h : le x y = true
    · simp [h]
    · simp only [h, Bool.false_eq_true, if_false, List.mem_cons, ih]
      tauto

/-- Sorting does not change membership. -/
theorem mem_sortBy {le : α → α → Bool} {a : α} :
    ∀ {l : List α}, a ∈ sortBy le l ↔ a ∈ l := by
  intro l
  induction l with
  | nil => simp [sortBy]
  | cons y ys ih => simp [sortBy, mem_insertBy, ih]

/-- Deduplication does not change membership. -/
theorem mem_dedupStr {a : String} :
    ∀ {l : List String}, a ∈ dedupStr l ↔ a ∈ l := by
  intro l
  induction l with
  | nil => simp [dedupStr]
  | cons y ys ih =>
    simp only [dedupStr]
    by_cases h : y ∈ ys
    · simp only [if_pos h, ih, List.mem_cons]
      constructor
      · exact Or.inr
      · rintro (rfl | hm)
        · exact h
        · exact hm
    · simp [h, ih]

/-- Every result of the output is the `countyResult` of one
`(year, contest, county)` group of the run state. -/
theorem mem_allResults {st : State} {minC : ℕ} {ccr : CCR}
    (h : ccr ∈ allResults st minC) :
    ∃ y ct ck, ccr = countyResult (assocGetD st.countyNames ck (pyTitle ck))
      (labelFor st y ct) y (entriesFor st y ct ck) := by
  simp only [allResults, List.mem_flatMap] at h
  obtain ⟨yb, hyb, blk, hblk, hccr⟩ := h
  simp only [resultsByYear, List.mem_filterMap] at hyb
  obtain ⟨y, _, hif⟩ := hyb
  by_cases he : (yearBlocks st minC y).isEmpty
  · simp [he] at hif
  · simp only [he, Bool.false_eq_true, if_false, Option.some.injEq] at hif
    subst hif
    simp only [yearBlocks, List.mem_map, List.mem_filter] at hblk
    obtain ⟨ct, ⟨_, _⟩, hpair⟩ := hblk
    subst hpair
    simp only [contestBlock, List.mem_map, mem_sortBy] at hccr
    obtain ⟨ck, _, hres⟩ := hccr
    exact ⟨y, ct, ck, hres.symm⟩

/-- The votes of a group's entry list come from accepted records. -/
theorem entriesFor_votes {st : State} {y ct ck : String} {e : String × String × ℤ}
    (h : e ∈ entriesFor st y ct ck) : ∃ r ∈ st.accepted, e.2.2 = r.votes := by
  simp only [entriesFor, List.mem_map, List.mem_filter] at h
  obtain ⟨r, ⟨hr, _⟩, he⟩ := h
  exact ⟨r, hr, by rw [← he]⟩

/-- An integer-valued sum over a list splits along two disjoint filters and
their complement. -/
theorem sum_filter_split (f : α → ℤ) (p q : α → Bool)
    (hpq : ∀ a, ¬(p a = true ∧ q a = true)) :
    ∀ l : List α,
      (l.map f).sum = ((l.filter p).map f).sum + ((l.filter q).map f).sum +
        ((l.filter (fun a => !p a && !q a)).map f).sum := by
  intro l
  induction l with
  | nil => simp
  | cons a l ih =>
    cases hp : p a with
    | true =>
      cases hq : q a with
      | true => exact absurd ⟨hp, hq⟩ (hpq a)
      | false =>
        simp only [List.map_cons, List.sum_cons, List.filter_cons, hp, hq,
          Bool.not_true, Bool.not_false, Bool.false_and, Bool.false_eq_true,
          if_true, if_false, List.map_cons, List.sum_cons]
        omega
    | false =>
      cases hq : q a with
      | true =>
        simp only [List.map_cons, List.sum_cons, List.filter_cons, hp, hq,
          Bool.not_true, Bool.not_false, Bool.true_and, Bool.false_eq_true,
          if_true, if_false, List.map_cons, List.sum_cons]
        omega
      | false =>
        simp only [List.map_cons, List.sum_cons, List.filter_cons, hp, hq,
          Bool.not_true, Bool.not_false, Bool.true_and, Bool.false_eq_true,
          if_true, if_false, List.map_cons, List.sum_cons]
        omega

/-- A list's vote sum splits into its Democratic, Republican and remaining
entries. -/
theorem sumVotes_split (entries : List (String × String × ℤ)) :
    sumVotes entries =
      sumVotes (entries.filter (fun e => e.1 == "DEM")) +
      sumVotes (entries.filter (fun e => e.1 == "REP")) +
      sumVotes (entries.filter (fun e => !(e.1 == "DEM") && !(e.1 == "REP"))) := by
  refine sum_filter_split (fun e => e.2.2) _ _ ?_ entries
  intro a ⟨h1, h2⟩
  rw [beq_iff_eq] at h1 h2
  rw [h1] at h2
  exact absurd h2 (by decide)

/-- A sum of non-negative votes is non-negative. -/
theorem sumVotes_nonneg {entries : List (String × String × ℤ)}
    (h : ∀ e ∈ entries, 0 ≤ e.2.2) : 0 ≤ sumVotes entries := by
  refine List.sum_nonneg ?_
  intro x hx
  obtain ⟨e, he, hex⟩ := List.mem_map.mp hx
  exact hex ▸ h e he

/-- The Democratic vote total of `countyResult` as a filtered sum. -/
theorem countyResult_dem (county cname year : String)
    (entries : List (String × String × ℤ)) :
    (countyResult county cname year entries).dem_votes =
      sumVotes (entries.filter (fun e => e.1 == "DEM")) := by
  simp [countyResult, sumVotes, List.map_map]
  rfl

/-- The Republican vote total of `countyResult` as a filtered sum. -/
theorem countyResult_rep (county cname year : String)
    (entries : List (String × String × ℤ)) :
    (countyResult county cname year entries).rep_votes =
      sumVotes (entries.filter (fun e => e.1 == "REP")) := by
  simp [countyResult, sumVotes, List.map_map]
  rfl

/-- With non-negative entry votes, the clamped `other_votes` of a county
result closes the vote-sum identity. -/
theorem countyResult_sum_invariant (county cname year : String)
    (entries : List (String × String × ℤ))
    (h : ∀ e ∈ entries, 0 ≤ e.2.2) :
    (countyResult county cname year entries).dem_votes +
      (countyResult county cname year entries).rep_votes +
      (countyResult county cname year entries).other_votes =
      (countyResult county cname year entries).total_votes := by
  have hd := countyResult_dem county cname year entries
  have hr := countyResult_rep county cname year entries
  have htot : (countyResult county cname year entries).total_votes
      = sumVotes entries := rfl
  have htwo : (countyResult county cname year entries).two_party_total
      = (countyResult county cname year entries).dem_votes +
        (countyResult county cname year entries).rep_votes := rfl
  have hoth : (countyResult county cname year entries).other_votes
      = max 0 ((countyResult county cname year entries).total_votes -
          (countyResult county cname year entries).two_party_total) := rfl
  have hsplit := sumVotes_split entries
  have hrest : 0 ≤ sumVotes
      (entries.filter (fun e => !(e.1 == "DEM") && !(e.1 == "REP"))) := by
    refine sumVotes_nonneg ?_
    intro e he
    exact h e (List.mem_of_mem_filter he)
  rw [hoth, htwo, htot, hd, hr, max_def]
  split_ifs with hcase
  · omega
  · omega

/-! ## Claim C1: the vote-sum invariant of every output result -/

/-- C1: for every `CountyContestResult` of the aggregation output (built from
a run state whose accepted records carry non-negative vote counts, the
invariant stated by the data model), `dem_votes + rep_votes + other_votes`
equals `total_votes`, and `other_votes` is the clamped
`max 0 (total_votes − two_party_total)`. -/
theorem aggregation_vote_sum_invariant (st : State) (minC : ℕ)
    (h : ∀ r ∈ st.accepted, 0 ≤ r.votes) :
    ∀ ccr ∈ allResults st minC,
      ccr.dem_votes + ccr.rep_votes + ccr.other_votes = ccr.total_votes ∧
      ccr.other_votes = max 0 (ccr.total_votes - ccr.two_party_total) := by
  intro ccr hm
  obtain ⟨y, ct, ck, rfl⟩ := mem_allResults hm
  constructor
  · refine countyResult_sum_invariant _ _ _ _ ?_
    intro e he
    obtain ⟨r, hr, hv⟩ := entriesFor_votes he
    exact hv ▸ h r hr
  · rfl

/-- A concrete record accepted by the run used by the witnesses: a single
Libertarian observation in Kanawha county. -/
def recLib : Rec :=
  { year := "2020", contest := "president", ckey := "KANAWHA",
    party := "LIB", cand := "Ann Roe", votes := 7 }

/-- The run state after ingesting exactly `recLib`. -/
def stLib : State :=
  { seen := [recLib], countyNames := [("KANAWHA", "Kanawha")],
    labels := [(("2020", "president"), "President of the United States")],
    accepted := [recLib] }

/-- The county result the aggregation builds from `stLib`. -/
def ccrLib : CCR :=
  countyResult "Kanawha" "President of the United States" "2020"
    [("LIB", "Ann Roe", 7)]

/-- C1 witness: the invariant evaluated on the output of a concrete run. -/
theorem aggregation_vote_sum_invariant_witness :
    ccrLib.dem_votes + ccrLib.rep_votes + ccrLib.other_votes
        = ccrLib.total_votes ∧
      ccrLib.other_votes = max 0 (ccrLib.total_votes - ccrLib.two_party_total) :=
  aggregation_vote_sum_invariant stLib 1 (by decide) ccrLib (by decide)

/-! ## Claim C5: winner is the sign of the margin -/

/-- C5: in every output result the `winner` field matches the sign of
`margin = dem_votes − rep_votes` (`DEM` iff positive, `REP` iff negative,
`TIE` iff zero), and a zero two-party total forces `margin_pct = 0` and a
`TIE` winner (votes being non-negative, per the data model's invariant). -/
theorem winner_matches_margin_sign (st : State) (minC : ℕ)
    (h : ∀ r ∈ st.accepted, 0 ≤ r.votes) :
    ∀ ccr ∈ allResults st minC,
      (ccr.winner = "DEM" ↔ 0 < ccr.margin) ∧
      (ccr.winner = "REP" ↔ ccr.margin < 0) ∧
      (ccr.winner = "TIE" ↔ ccr.margin = 0) ∧
      (ccr.two_party_total = 0 → ccr.margin_pct = 0 ∧ ccr.winner = "TIE") := by
  intro ccr hm
  obtain ⟨y, ct, ck, rfl⟩ := mem_allResults hm
  set entries := entriesFor st y ct ck with hent
  have hd := countyResult_dem (assocGetD st.countyNames ck (pyTitle ck))
    (labelFor st y ct) y entries
  have hr := countyResult_rep (assocGetD st.countyNames ck (pyTitle ck))
    (labelFor st y ct) y entries
  set c := countyResult (assocGetD st.countyNames ck (pyTitle ck))
    (labelFor st y ct) y entries with hc
  have hmargin : c.margin = c.dem_votes - c.rep_votes := rfl
  have hwin : c.winner =
      (if c.rep_votes < c.dem_votes then "DEM"
       else if c.dem_votes < c.rep_votes then "REP" else "TIE") := rfl
  have htwo : c.two_party_total = c.dem_votes + c.rep_votes := rfl
  refine ⟨?_, ?_, ?_, ?_⟩
  · rw [hwin, hmargin]
    split_ifs with h1 h2
    · exact ⟨fun _ => by omega, fun _ => rfl⟩
    · exact ⟨fun hh => absurd hh (by decide), fun hh => absurd hh (by omega)⟩
    · exact ⟨fun hh => absurd hh (by decide), fun hh => absurd hh (by omega)⟩
  · rw [hwin, hmargin]
    split_ifs with h1 h2
    · exact ⟨fun hh => absurd hh (by decide), fun hh => absurd hh (by omega)⟩
    · exact ⟨fun _ => by omega, fun _ => rfl⟩
    · exact ⟨fun hh => absurd hh (by decide), fun hh => absurd hh (by omega)⟩
  · rw [hwin, hmargin]
    split_ifs with h1 h2
    · exact ⟨fun hh => absurd hh (by decide), fun hh => absurd hh (by omega)⟩
    · exact ⟨fun hh => absurd hh (by decide), fun hh => absurd hh (by omega)⟩
    · exact ⟨fun _ => by omega, fun _ => rfl⟩
  · intro hz
    have hdnn : 0 ≤ c.dem_votes := by
      rw [hc, hd]
      refine sumVotes_nonneg ?_
      intro e he
      obtain ⟨r, hrr, hv⟩ := entriesFor_votes (List.mem_of_mem_filter he)
      exact hv ▸ h r hrr
    have hrnn : 0 ≤ c.rep_votes := by
      rw [hc, hr]
      refine sumVotes_nonneg ?_
      intro e he
      obtain ⟨r, hrr, hv⟩ := entriesFor_votes (List.mem_of_mem_filter he)
      exact hv ▸ h r hrr
    rw [htwo] at hz
    have hd0 : c.dem_votes = 0 := by omega
    have hr0 : c.rep_votes = 0 := by omega
    constructor
    · have hpct : c.margin_pct =
          (if c.two_party_total ≠ 0 then
            pyRound2 ((c.margin : ℚ) / (c.two_party_total : ℚ) * 100)
          else 0) := rfl
      rw [hpct, htwo, hd0, hr0]
      norm_num
    · rw [hwin, hd0, hr0]
      norm_num

/-- C5 witness: a zero two-party total in a concrete run's output forces
`margin_pct = 0` and winner `TIE`. -/
theorem winner_matches_margin_sign_witness :
    ccrLib.margin_pct = 0 ∧ ccrLib.winner = "TIE" :=
  (winner_matches_margin_sign stLib 1 (by decide) ccrLib (by decide)).2.2.2
    (by decide)

/-! ## Claim C4: re-ingesting the same rows is idempotent -/

/-- C4: processing the same row stream twice in one run yields exactly the
run state — and hence the aggregation output — of processing it once: every
repeated tuple is discarded by the run-wide seen-tuple set. -/
theorem double_ingestion_idempotent (rows : List (Ctx × Row)) (minC : ℕ) :
    processRows initState (rows ++ rows) = processRows initState rows ∧
    (processRows initState (rows ++ rows)).map (fun st => resultsByYear st minC)
      = (processRows initState rows).map (fun st => resultsByYear st minC) := by
  have h : processRows initState (rows ++ rows) = processRows initState rows := by
    rw [processRows_append]
    cases hp : processRows initState rows with
    | none => rfl
    | some s1 => exact processRows_replay hp (Extends.rfl s1)
  exact ⟨h, by rw [h]⟩

/-! ## Claim C10: duplicate suppression also works within one file -/

/-- C10: when two rows of one file normalize to the same
`(year, contest_type, county_key, party, candidate, votes)` tuple, the run
with the later row is the run without it — only the first contributes. -/
theorem intra_file_duplicate_discarded (s : State) (ctx : Ctx)
    (l1 l2 l3 : List (Ctx × Row)) (row1 row2 : Row) (r : Rec)
    (d1 n1 d2 n2 : String)
    (h1 : ingestRow ctx row1 = Except.ok (some (r, d1, n1)))
    (h2 : ingestRow ctx row2 = Except.ok (some (r, d2, n2))) :
    processRows s (l1 ++ (ctx, row1) :: (l2 ++ (ctx, row2) :: l3)) =
      processRows s (l1 ++ (ctx, row1) :: (l2 ++ l3)) := by
  rw [processRows_append, processRows_append]
  cases hp : processRows s l1 with
  | none => rfl
  | some sa =>
    obtain ⟨sb, hsb, hmem, hkey⟩ := step_accept (s := sa) h1
    show processRows sa ((ctx, row1) :: (l2 ++ (ctx, row2) :: l3))
        = processRows sa ((ctx, row1) :: (l2 ++ l3))
    have hunf1 : processRows sa ((ctx, row1) :: (l2 ++ (ctx, row2) :: l3))
        = match step sa (ctx, row1) with
          | none => none
          | some sx => processRows sx (l2 ++ (ctx, row2) :: l3) := rfl
    have hunf2 : processRows sa ((ctx, row1) :: (l2 ++ l3))
        = match step sa (ctx, row1) with
          | none => none
          | some sx => processRows sx (l2 ++ l3) := rfl
    rw [hunf1, hunf2, hsb]
    show processRows sb (l2 ++ (ctx, row2) :: l3) = processRows sb (l2 ++ l3)
    rw [processRows_append, processRows_append]
    cases hq : processRows sb l2 with
    | none => rfl
    | some sc =>
      have hext : Extends sb sc := processRows_extends hq
      show processRows sc ((ctx, row2) :: l3) = processRows sc l3
      have hunf3 : processRows sc ((ctx, row2) :: l3)
          = match step sc (ctx, row2) with
            | none => none
            | some sx => processRows sx l3 := rfl
      rw [hunf3, step_idem sc h2 (hext.1 r hmem) (hext.2 r.ckey hkey)]

/-- The per-file context shared by the concrete witnesses. -/
def ctxW : Ctx := { year := "2020", fileCounty := "", lookup := [] }

/-- A well-formed raw row for Kanawha county. -/
def rowDem : Row :=
  { county := "Kanawha", office := "PRESIDENT", party := "DEM",
    candidate := "JANE DOE", votesField := some "100" }

/-- The record `rowDem` normalizes to. -/
def recDem : Rec :=
  { year := "2020", contest := "president", ckey := "KANAWHA",
    party := "DEM", cand := "Jane Doe", votes := 100 }

/-- C10 witness: ingesting the same Kanawha row twice equals ingesting it
once. -/
theorem intra_file_duplicate_discarded_witness :
    processRows initState ([] ++ (ctxW, rowDem) :: ([] ++ (ctxW, rowDem) :: []))
      = processRows initState ([] ++ (ctxW, rowDem) :: ([] ++ [])) :=
  intra_file_duplicate_discarded initState ctxW [] [] [] rowDem rowDem recDem
    "Kanawha" "President of the United States"
    "Kanawha" "President of the United States" (by rfl) (by rfl)

/-! ## Claim C6: vote parsing and the fatality of non-numeric fields -/

/-- C6: `to_int` maps the empty field and the lone `-`/`--` to zero, strips
comma separators, rounds a float parse to the nearest integer, and yields an
error on any other non-numeric field; that error propagates through the
ingestion loop and aborts the run wherever such a row occurs. -/
theorem vote_parse_errors_propagate :
    to_int "" = some 0 ∧ to_int "-" = some 0 ∧ to_int "--" = some 0 ∧
    to_int "1,234" = some 1234 ∧ to_int "12.6" = some 13 ∧
    to_int "N/A" = none ∧
    (∀ (s : State) (ctx : Ctx) (row : Row) (l1 l2 : List (Ctx × Row)),
      extract_votes row = none →
      processRows s (l1 ++ (ctx, row) :: l2) = none) := by
  refine ⟨by decide, by decide, by decide, by decide, by decide, by decide, ?_⟩
  intro s ctx row l1 l2 hev
  have hfatal : ingestRow ctx row = Except.error () := by
    unfold ingestRow
    rw [hev]
  rw [processRows_append]
  cases hp : processRows s l1 with
  | none => rfl
  | some sa =>
    show processRows sa ((ctx, row) :: l2) = none
    have hunf : processRows sa ((ctx, row) :: l2)
        = match step sa (ctx, row) with
          | none => none
          | some sx => processRows sx l2 := rfl
    rw [hunf, step_fatal sa hfatal]

/-- A row whose votes field is not numeric. -/
def rowBad : Row :=
  { county := "Kanawha", office := "PRESIDENT", party := "DEM",
    candidate := "JANE DOE", votesField := some "N/A" }

/-- C6 witness: a run containing the non-numeric row aborts. -/
theorem vote_parse_errors_propagate_witness :
    processRows initState ([] ++ (ctxW, rowBad) :: []) = none :=
  vote_parse_errors_propagate.2.2.2.2.2.2 initState ctxW rowBad [] []
    (by decide)

/-! ## Claim C9: the minimum-county contest filter -/

/-- Whatever entry the output lookup finds for a year is that year paired
with its own blocks. -/
theorem find_resultsByYear {st : State} {minC : ℕ} {y : String}
    {res : String × List (String × List CCR)}
    (h : (resultsByYear st minC).find? (fun p => p.1 == y) = some res) :
    res = (y, yearBlocks st minC y) := by
  have hp := List.find?_some h
  have hmem := List.mem_of_find?_eq_some h
  simp only [resultsByYear, List.mem_filterMap] at hmem
  obtain ⟨y0, _, hif⟩ := hmem
  by_cases he : (yearBlocks st minC y0).isEmpty
  · rw [if_pos he] at hif
    cases hif
  · rw [if_neg he] at hif
    injection hif with hif
    subst hif
    simp only [beq_iff_eq] at hp
    subst hp
    rfl

/-- C9: a `(year, contest_type)` group whose distinct-county count is below
the configured minimum is absent from the output, and one whose count equals
the minimum (which is at least one) is present. -/
theorem contest_minimum_county_filter (st : State) (minC : ℕ) (y ct : String)
    (hmin : 1 ≤ minC) :
    ((countiesFor st y ct).length < minC →
      contestPresent st minC y ct = false) ∧
    ((countiesFor st y ct).length = minC →
      contestPresent st minC y ct = true) := by
  constructor
  · intro hlt
    unfold contestPresent
    cases hf : (resultsByYear st minC).find? (fun p => p.1 == y) with
    | none => rfl
    | some res =>
      have hres := find_resultsByYear hf
      subst hres
      dsimp only
      rw [List.any_eq_false]
      intro b hb
      simp only [yearBlocks, List.mem_map, List.mem_filter] at hb
      obtain ⟨ct0, ⟨_, hcond⟩, rfl⟩ := hb
      simp only [beq_iff_eq]
      intro hbeq
      rw [hbeq] at hcond
      rw [decide_eq_true hlt] at hcond
      exact absurd hcond (by decide)
  · intro heq
    have hlen : 1 ≤ (countiesFor st y ct).length := by omega
    obtain ⟨ck, hck⟩ : ∃ ck, ck ∈ countiesFor st y ct := by
      cases hcs : countiesFor st y ct with
      | nil => rw [hcs] at hlen; exact absurd hlen (by decide)
      | cons a l => exact ⟨a, List.mem_cons_self a l⟩
    have hck2 := hck
    simp only [countiesFor, mem_dedupStr, List.mem_map, List.mem_filter]
      at hck2
    obtain ⟨r, ⟨hr, hyr⟩, hckr⟩ := hck2
    rw [Bool.and_eq_true, beq_iff_eq, beq_iff_eq] at hyr
    obtain ⟨hry, hrct⟩ := hyr
    have hy : y ∈ yearsOf st := by
      simp only [yearsOf, mem_sortBy, mem_dedupStr, List.mem_map]
      exact ⟨r, hr, hry⟩
    have hctm : ct ∈ contestsOf st y := by
      simp only [contestsOf, mem_sortBy, mem_dedupStr, List.mem_map,
        List.mem_filter]
      exact ⟨r, ⟨hr, by rw [beq_iff_eq]; exact hry⟩, hrct⟩
    have hfilter : ct ∈ (contestsOf st y).filter
        (fun ct0 => !((countiesFor st y ct0).length < minC : Bool)) := by
      rw [List.mem_filter]
      refine ⟨hctm, ?_⟩
      rw [heq]
      simp
    have hblk : (ct, contestBlock st y ct) ∈ yearBlocks st minC y := by
      simp only [yearBlocks, List.mem_map]
      exact ⟨ct, hfilter, rfl⟩
    have hne : ¬(yearBlocks st minC y).isEmpty = true := by
      cases hyb : yearBlocks st minC y with
      | nil => rw [hyb] at hblk; cases hblk
      | cons a l => simp [List.isEmpty]
    have hmem : (y, yearBlocks st minC y) ∈ resultsByYear st minC := by
      rw [resultsByYear, List.mem_filterMap]
      exact ⟨y, hy, by rw [if_neg hne]⟩
    unfold contestPresent
    cases hf : (resultsByYear st minC).find? (fun p => p.1 == y) with
    | none =>
      exfalso
      rw [List.find?_eq_none] at hf
      exact absurd (by simp : (((y, yearBlocks st minC y)).1 == y) = true)
        (by simpa using hf _ hmem)
    | some res =>
      have hres := find_resultsByYear hf
      subst hres
      dsimp only
      rw [List.any_eq_true]
      exact ⟨(ct, contestBlock st y ct), hblk, by simp⟩

/-- C9 witness: with the minimum set to one, a one-county contest of a
concrete run is present in the output. -/
theorem contest_minimum_county_filter_witness :
    contestPresent stLib 1 "2020" "president" = true :=
  (contest_minimum_county_filter stLib 1 "2020" "president" (by decide)).2
    (by decide)

/-! ## Claim C2: boundary values of the competitiveness classifier -/

/-- C2: the classifier is boundary-exact.  A positive margin of exactly 40
is Annihilation, 30 Dominant, 20 Stronghold, 10 Safe, 0.99 Tilt (Lean starts
strictly above 0.99), 0.5 Tilt, 0 Tossup with code `T_TOSSUP`, and 39.99 is
Dominant; symmetrically with the `R_` prefix for negative margins. -/
theorem classifier_boundary_exact :
    (compute_competitiveness 40).code = "D_ANNIHILATION" ∧
    (compute_competitiveness 40).category = "Annihilation Democratic" ∧
    (compute_competitiveness 30).code = "D_DOMINANT" ∧
    (compute_competitiveness 20).code = "D_STRONGHOLD" ∧
    (compute_competitiveness 10).code = "D_SAFE" ∧
    (compute_competitiveness (mkRat 99 100)).code = "D_TILT" ∧
    (compute_competitiveness (mkRat 1 2)).code = "D_TILT" ∧
    (compute_competitiveness 0).code = "T_TOSSUP" ∧
    (compute_competitiveness 0).category = "Tossup" ∧
    (compute_competitiveness (mkRat 3999 100)).code = "D_DOMINANT" ∧
    (compute_competitiveness (-40)).code = "R_ANNIHILATION" ∧
    (compute_competitiveness (-40)).category = "Annihilation Republican" ∧
    (compute_competitiveness (-30)).code = "R_DOMINANT" ∧
    (compute_competitiveness (-20)).code = "R_STRONGHOLD" ∧
    (compute_competitiveness (-10)).code = "R_SAFE" ∧
    (compute_competitiveness (mkRat (-99) 100)).code = "R_TILT" ∧
    (compute_competitiveness (mkRat (-1) 2)).code = "R_TILT" ∧
    (compute_competitiveness (mkRat (-3999) 100)).code = "R_DOMINANT" := by
  decide

/-! ## Claim C3: which thresholds are inclusive -/

/-- C3 counterexample: an absolute margin of exactly 5.5 does *not* classify
as Likely (the `> 5.5` comparison of the source is strict); it falls through
to the Lean tier. -/
theorem likely_bound_not_inclusive :
    (compute_competitiveness (mkRat 11 2)).code = "D_LEAN" ∧
    (compute_competitiveness (mkRat 11 2)).code ≠ "D_LIKELY" ∧
    (compute_competitiveness (mkRat 11 2)).category = "Lean Democratic" := by
  decide

/-- C3 amended: the four widest thresholds (40, 30, 20, 10) and the Tilt
threshold (0.5) are inclusive at their lower bounds, but the Likely (`> 5.5`)
and Lean (`> 0.99`) thresholds are strict: an absolute margin of exactly 5.5
classifies as Lean and one of exactly 0.99 as Tilt, on either side of zero. -/
theorem threshold_inclusivity :
    (compute_competitiveness 40).code = "D_ANNIHILATION" ∧
    (compute_competitiveness (-40)).code = "R_ANNIHILATION" ∧
    (compute_competitiveness 30).code = "D_DOMINANT" ∧
    (compute_competitiveness 20).code = "D_STRONGHOLD" ∧
    (compute_competitiveness 10).code = "D_SAFE" ∧
    (compute_competitiveness (mkRat 1 2)).code = "D_TILT" ∧
    (compute_competitiveness (mkRat 11 2)).code = "D_LEAN" ∧
    (compute_competitiveness (mkRat (-11) 2)).code = "R_LEAN" ∧
    (compute_competitiveness (mkRat 99 100)).code = "D_TILT" ∧
    (compute_competitiveness (mkRat (-99) 100)).code = "R_TILT" := by
  decide

/-! ## Claim C7: county normalization of "Mcdowell COUNTY" -/

/-- C7 counterexample: with no canonical reference supplied, the mixed-case
input `"Mcdowell COUNTY"` is *not* title-cased to `"McDowell"`; the
title-casing branch of `display_county_name` fires only for all-uppercase
names, so the stripped name comes back unchanged. -/
theorem mcdowell_no_reference_not_titlecased :
    canonicalize_county_name "Mcdowell COUNTY" [] = "Mcdowell" ∧
    canonicalize_county_name "Mcdowell COUNTY" [] ≠ "McDowell" := by
  decide

/-- C7 amended: the trailing COUNTY suffix is stripped; when a reference
containing McDowell is supplied, lookup resolves `"Mcdowell COUNTY"` to the
canonical `"McDowell"`; when no reference is supplied, title-casing with the
`Mc` re-capitalization applies only to all-uppercase names, so
`"Mcdowell COUNTY"` yields `"Mcdowell"` while `"MCDOWELL COUNTY"` yields
`"McDowell"`. -/
theorem mcdowell_canonicalization :
    canonicalize_county_name "Mcdowell COUNTY" [("mcdowell", "McDowell")]
      = "McDowell" ∧
    canonicalize_county_name "Mcdowell COUNTY" [] = "Mcdowell" ∧
    canonicalize_county_name "MCDOWELL COUNTY" [] = "McDowell" := by
  decide

/-! ## Claim C8: candidate-name normalization is not idempotent -/

/-- C8 (code bug): `normalize_candidate_name` is not idempotent.  On
`"John Jr."` the `Jr` pass backtracks over its optional dot (the regex
`\bJr\.?\b` cannot close its word boundary after the final dot), matches the
bare `"Jr"` and emits a fresh dot before the original one, yielding
`"John Jr.."`; a second application appends yet another dot. -/
theorem candidate_normalization_not_idempotent :
    normalize_candidate_name "John Jr." = "John Jr.." ∧
    normalize_candidate_name (normalize_candidate_name "John Jr.")
      = "John Jr..." ∧
    normalize_candidate_name (normalize_candidate_name "John Jr.")
      ≠ normalize_candidate_name "John Jr." := by
  decide

end WV

